import Mathlib

/-!
Verification of the persistent priority task queue (`src/queue-sync/main.js`).

The JavaScript `TaskQueue` class is shallowly embedded below.  JavaScript
numbers that the engine only ever uses as non-negative integers (priorities,
counters, `Date.now()` timestamps) are modelled as `Nat`; JSON payload objects
(`metadata`, `result`) are modelled as association lists; nullable fields are
`Option`s.  File-system persistence is modelled by a pure `Stored` snapshot
value: `persist` produces one, `load` consumes one (a `none` resource models a
missing or corrupt file, which the source recovers from with defaults).

Mutation of the shared current-task object (JavaScript aliasing between
`this.currentTask` and the queue entry) is modelled by updating both the
`currentTask` copy and the queue entry with the same id (`updTask`); task ids
are generated from a timestamp plus a random suffix in the source and are
assumed unique (the `Reach.enqueueStep` constructor carries the freshness
side condition, mirroring the spec's "globally unique" id contract).

String helpers are defined structurally over `String.data` so that concrete
runs of the engine reduce inside the kernel.  `jsTrim` models
`String.prototype.trim` on the engine's ASCII payloads.
-/

namespace TaskQueue

/-- `content.split('\n')` of the source, structurally: split at every
newline character; the empty string yields `[""]`. -/
def splitLinesAux : List Char → List Char → List (List Char)
  | [], acc => [acc.reverse]
  | c :: cs, acc =>
    if c = '\n' then acc.reverse :: splitLinesAux cs [] else splitLinesAux cs (c :: acc)

def splitLines (s : String) : List String :=
  (splitLinesAux s.data []).map (fun l => String.mk l)

def isWsChar (c : Char) : Bool := c = ' ' || c = '\t' || c = '\r' || c = '\n'

/-- `l.trim()` of the source: strip leading and trailing whitespace. -/
def jsTrim (s : String) : String :=
  String.mk (((s.data.dropWhile isWsChar).reverse.dropWhile isWsChar).reverse)

/-- `s.startsWith(p)` of the source. -/
def strStarts (p : String) (s : String) : Bool :=
  s.data.take p.data.length == p.data

/-- `s.substring(2)` of the source (on strings of length ≥ 2). -/
def strDrop2 (s : String) : String := String.mk (s.data.drop 2)

-- ## Data model (mirrors the constant tables and object shapes of the source)

/-- `TASK_STATE` of the source. -/
inductive TaskState where
  | pending | processing | completed | failed | waiting
deriving DecidableEq, Repr

/-- `this.state.status` values of the source: idle, processing, paused, error. -/
inductive RunStatus where
  | idle | processing | paused | error
deriving DecidableEq, Repr

/-- `PRIORITY` table of the source: CRITICAL 0, HIGH 1, NORMAL 2, LOW 3.
Priorities are plain numbers in the source and arbitrary numeric values can
arrive over the API, so the model uses `Nat`. -/
def PRIORITY_CRITICAL : Nat := 0
def PRIORITY_HIGH : Nat := 1
def PRIORITY_NORMAL : Nat := 2
def PRIORITY_LOW : Nat := 3

/-- `DEFAULT_CONFIG` shape of the source (the `platforms` list never affects
engine behaviour and is omitted). -/
structure Config where
  maxRetries : Nat := 3
  retryDelay : Nat := 5000
  persistInterval : Nat := 5000
  autoProcess : Bool := true
deriving DecidableEq, Repr

structure SubTask where
  id : String
  content : String
  state : TaskState
deriving DecidableEq, Repr

structure Task where
  id : String
  content : String
  platform : String
  userId : String
  priority : Nat
  metadata : List (String × String)
  sessionId : Option String
  state : TaskState
  createdAt : Nat
  startedAt : Option Nat
  completedAt : Option Nat
  subTasks : List SubTask
  retryCount : Nat
  result : Option (List (String × String))
  error : Option String
deriving DecidableEq, Repr

/-- `this.state` of the source. -/
structure RunState where
  status : RunStatus
  lastProcessed : Option String
  totalProcessed : Nat
  totalFailed : Nat
  sessionId : Option String
  startedAt : Nat
deriving DecidableEq, Repr

/-- `this.progress[taskId]` entries of the source. -/
structure Progress where
  completed : Nat
  total : Nat
deriving DecidableEq, Repr

/-- The in-memory engine: `this.config`, `this.queue`, `this.currentTask`,
`this.state`, `this.progress`. -/
structure Engine where
  config : Config
  queue : List Task
  currentTask : Option Task
  state : RunState
  progress : List (String × Progress)
deriving DecidableEq, Repr

/-- The three on-disk resources (`queue.json`'s `messages`, `state.json`,
`progress.json`); `none` models a missing or unparsable file. -/
structure Stored where
  messages : Option (List Task)
  runState : Option RunState
  progressMap : Option (List (String × Progress))
deriving DecidableEq, Repr

/-- `options` object of `enqueue`; `none` fields model omitted properties
(the source fills them by destructuring defaults). -/
structure Options where
  platform : Option String := none
  userId : Option String := none
  priority : Option Nat := none
  metadata : Option (List (String × String)) := none
  sessionId : Option (Option String) := none
deriving DecidableEq, Repr

-- ## Persistence (`load` / `persist`)

def defaultRunState (now : Nat) : RunState :=
  { status := .idle, lastProcessed := none, totalProcessed := 0, totalFailed := 0,
    sessionId := none, startedAt := now }

/-- `load()` of the source, applied to an engine: `this.queue = data.messages || []`;
`this.state = { ...this.state, ...parsed }` (a spread of a full record over the
in-memory record replaces every field, so it is the loaded record when the file
is present and parsable); `this.progress = parsed`. -/
def load (s : Engine) (st : Stored) : Engine :=
  { s with
    queue := st.messages.getD []
    state := st.runState.getD s.state
    progress := st.progressMap.getD [] }

/-- `persist()` of the source: write the queue (`messages`), run state and
progress map. -/
def persist (s : Engine) : Stored :=
  ⟨some s.queue, some s.state, some s.progress⟩

/-- The constructor `new TaskQueue(config)`: default in-memory state, then
`this.load()` against whatever is on disk. -/
def newEngine (cfg : Config) (now : Nat) (st : Stored) : Engine :=
  load { config := cfg, queue := [], currentTask := none,
         state := defaultRunState now, progress := [] } st

/-- A fresh engine started with no persisted files. -/
def mkEngine (cfg : Config) (now : Nat) : Engine :=
  newEngine cfg now ⟨none, none, none⟩

-- ## Queue operations

/-- Replace the queue entries carrying `id` by `t'`; models the in-place
mutation of the shared task object found by id. -/
def updTask (id : String) (t' : Task) (q : List Task) : List Task :=
  q.map (fun x => if x.id = id then t' else x)

/-- The sub-task parse loop of `enqueue`: split `content` into lines, drop
blank lines (`filter(l => l.trim())`), and for each line whose trimmed form
starts with `"- "` or `"* "` push a `PENDING` sub-task whose content is the
trimmed line minus the two-character bullet, with id
`{taskId}_sub_{index}` where the index is the running count. -/
def parseSubTasks (taskId : String) (content : String) : List SubTask :=
  ((splitLines content).filter (fun l => jsTrim l ≠ "")).foldl
    (fun acc line =>
      let trimmed := jsTrim line
      if strStarts "- " trimmed || strStarts "* " trimmed then
        acc ++ [⟨taskId ++ "_sub_" ++ Nat.repr acc.length, strDrop2 trimmed, .pending⟩]
      else acc)
    []

/-- `const insertIndex = this.queue.findIndex(t => t.priority > priority)`
followed by `splice(insertIndex, 0, task)` or `push(task)`. -/
def insertTask (task : Task) (q : List Task) : List Task :=
  match q.findIdx? (fun t => task.priority < t.priority) with
  | some i => q.take i ++ [task] ++ q.drop i
  | none => q ++ [task]

/-- `getNextTask()`: first `PENDING` task. -/
def getNextTask (s : Engine) : Option Task :=
  s.queue.find? (fun t => t.state == TaskState.pending)

/-- `processNext()`: if no pending task, go idle with no current task;
otherwise mark the found task `PROCESSING`, stamp `startedAt`, make it the
current task and set the run status to `processing`. -/
def processNext (s : Engine) (now : Nat) : Engine × Option Task :=
  match getNextTask s with
  | none =>
    ({ s with state.status := .idle, currentTask := none }, none)
  | some t =>
    let t' := { t with state := .processing, startedAt := some now }
    ({ s with currentTask := some t',
              state.status := .processing,
              queue := updTask t.id t' s.queue }, some t')

/-- The generated id `task_${Date.now()}_${randomSuffix}`. -/
def taskId (now : Nat) (sfx : String) : String :=
  "task_" ++ Nat.repr now ++ "_" ++ sfx

/-- `enqueue(content, options)`: destructure option defaults, build the task,
parse sub-tasks, insert by priority, and if `autoProcess` and the status is
`idle`, synchronously run `processNext`.  `now` models `Date.now()` and `sfx`
the random id suffix. -/
def enqueue (s : Engine) (now : Nat) (sfx : String) (content : String)
    (opts : Options) : Engine × Task :=
  let task : Task :=
    { id := taskId now sfx
      content := content
      platform := opts.platform.getD "unknown"
      userId := opts.userId.getD "unknown"
      priority := opts.priority.getD PRIORITY_NORMAL
      metadata := opts.metadata.getD []
      sessionId := opts.sessionId.getD none
      state := .pending
      createdAt := now
      startedAt := none
      completedAt := none
      subTasks := parseSubTasks (taskId now sfx) content
      retryCount := 0
      result := none
      error := none }
  let s' := { s with queue := insertTask task s.queue }
  if s.config.autoProcess && s.state.status == RunStatus.idle then
    ((processNext s' now).1, task)
  else
    (s', task)

/-- `completeTask(result)` without the `setTimeout`-deferred `processNext`
(that deferred call is a separate engine step, `Reach.timerStep` below):
mark the current task completed, drop it from the queue, bump counters, go
idle and delete its progress entry.  Returns `false` untouched when there is
no current task. -/
def completeTask (s : Engine) (now : Nat) (result : List (String × String)) :
    Engine × Bool :=
  match s.currentTask with
  | none => (s, false)
  | some task =>
    let t' := { task with state := .completed, completedAt := some now,
                          result := some result }
    let q1 := updTask task.id t' s.queue
    let q2 := q1.filter (fun t => t.id != task.id)
    ({ s with queue := q2,
              state := { s.state with lastProcessed := some task.id,
                                      totalProcessed := s.state.totalProcessed + 1,
                                      status := .idle },
              currentTask := none,
              progress := s.progress.filter (fun p => p.1 != task.id) }, true)

/-- Replace-or-append a keyed progress entry (`this.progress[id] = v`). -/
def setProgress (id : String) (v : Progress) (l : List (String × Progress)) :
    List (String × Progress) :=
  if l.any (fun p => p.1 == id) then
    l.map (fun p => if p.1 == id then (id, v) else p)
  else l ++ [(id, v)]

/-- `completeSubTask(subTaskId)`: only against the current task; flip the
named sub-task to `COMPLETED` and recompute the progress entry. -/
def completeSubTask (s : Engine) (subTaskId : String) : Engine × Bool :=
  match s.currentTask with
  | none => (s, false)
  | some task =>
    match task.subTasks.find? (fun st => st.id == subTaskId) with
    | none => (s, false)
    | some _ =>
      let subs := task.subTasks.map
        (fun st => if st.id == subTaskId then { st with state := .completed } else st)
      let t' := { task with subTasks := subs }
      let prog : Progress :=
        ⟨(subs.filter (fun st => st.state == TaskState.completed)).length, subs.length⟩
      ({ s with currentTask := some t',
                queue := updTask task.id t' s.queue,
                progress := setProgress task.id prog s.progress }, true)

/-- The per-task update inside `failTask`: `task.retryCount++`, then the
comparison against `maxRetries` decides terminal `FAILED` (with `error` set)
versus a return to `PENDING`. -/
def failTaskUpd (maxRetries : Nat) (err : String) (t : Task) : Task :=
  let rc := t.retryCount + 1
  if maxRetries ≤ rc then
    { t with retryCount := rc, state := .failed, error := some err }
  else
    { t with retryCount := rc, state := .pending }

/-- `failTask(error)`: no-op `false` when no current task; otherwise apply
`failTaskUpd`, on terminal failure drop the task from the queue and bump
`totalFailed`, go idle, clear the current slot and (synchronously, when
`autoProcess`) run `processNext`. -/
def failTask (s : Engine) (now : Nat) (err : String) : Engine × Bool :=
  match s.currentTask with
  | none => (s, false)
  | some task =>
    let t' := failTaskUpd s.config.maxRetries err task
    let q1 := updTask task.id t' s.queue
    let q2 := if t'.state == TaskState.failed
              then q1.filter (fun t => t.id != task.id) else q1
    let st1 := if t'.state == TaskState.failed
               then { s.state with totalFailed := s.state.totalFailed + 1 } else s.state
    let s1 := { s with queue := q2,
                       state := { st1 with status := .idle },
                       currentTask := none }
    if s.config.autoProcess then ((processNext s1 now).1, true) else (s1, true)

/-- `pause()`: `status = paused`. -/
def pause (s : Engine) : Engine :=
  { s with state.status := .paused }

/-- `resume()`: `status = idle`, then `processNext` when `autoProcess`. -/
def resume (s : Engine) (now : Nat) : Engine :=
  let s1 := { s with state.status := RunStatus.idle }
  if s.config.autoProcess then (processNext s1 now).1 else s1

/-- `clear()`: keep only `PROCESSING` and `PENDING` tasks. -/
def clear (s : Engine) : Engine :=
  { s with queue :=
      s.queue.filter (fun t => t.state == TaskState.processing || t.state == TaskState.pending) }

-- ## Reachable engine states

/-- Engine states reachable from a fresh start by the engine's own
operations, including a restart that reloads its own persisted data
(`timerStep` is the `setTimeout`-scheduled `processNext` from `completeTask`,
and also the explicit external dequeue of a non-`autoProcess` driver).
`enqueueStep` carries the freshness of the generated id (timestamp plus
random suffix, "globally unique" per the spec). -/
inductive Reach : Engine → Prop where
  | init (cfg : Config) (now : Nat) : Reach (mkEngine cfg now)
  | enqueueStep {s} (now : Nat) (sfx content : String) (opts : Options) :
      Reach s → (∀ t ∈ s.queue, t.id ≠ taskId now sfx) →
      Reach (enqueue s now sfx content opts).1
  | timerStep {s} (now : Nat) : Reach s → Reach (processNext s now).1
  | completeStep {s} (now : Nat) (r : List (String × String)) :
      Reach s → Reach (completeTask s now r).1
  | completeSubStep {s} (sid : String) : Reach s → Reach (completeSubTask s sid).1
  | failStep {s} (now : Nat) (err : String) : Reach s → Reach (failTask s now err).1
  | pauseStep {s} : Reach s → Reach (pause s)
  | resumeStep {s} (now : Nat) : Reach s → Reach (resume s now)
  | clearStep {s} : Reach s → Reach (clear s)
  | restartStep {s} (cfg : Config) (now : Nat) :
      Reach s → Reach (newEngine cfg now (persist s))

end TaskQueue

namespace TaskQueue

-- ## Helper lemmas about the insertion step

/-- Ordering used by the queue: ascending numeric priority. -/
abbrev Rp (a b : Task) : Prop := a.priority ≤ b.priority

/-- Recursive characterisation of the findIndex-splice insertion: walk the
queue and place the task before the first entry of strictly greater
priority value. -/
def insertRec (task : Task) : List Task → List Task
  | [] => [task]
  | t :: ts => if task.priority < t.priority then task :: t :: ts else t :: insertRec task ts

theorem insertTask_eq_insertRec (task : Task) (q : List Task) :
    insertTask task q = insertRec task q := by
  induction q with
  | nil => rfl
  | cons x xs ih =>
    by_cases h : task.priority < x.priority
    · simp [insertTask, insertRec, List.findIdx?_cons, h]
    · rw [insertRec, if_neg h, ← ih]
      unfold insertTask
      rw [List.findIdx?_cons]
      simp only [h, decide_False, if_false, List.findIdx?_succ]
      cases hfi : xs.findIdx? (fun t => decide (task.priority < t.priority)) with
      | none => simp [hfi]
      | some i => simp [hfi, List.take_succ_cons, List.drop_succ_cons]

theorem insertRec_perm (task : Task) (q : List Task) :
    (insertRec task q).Perm (task :: q) := by
  induction q with
  | nil => exact List.Perm.refl _
  | cons x xs ih =>
    by_cases h : task.priority < x.priority
    · rw [insertRec, if_pos h]
    · rw [insertRec, if_neg h]
      exact (ih.cons x).trans (List.Perm.swap task x xs)

theorem mem_insertRec {a task : Task} {q : List Task} :
    a ∈ insertRec task q ↔ a = task ∨ a ∈ q := by
  rw [(insertRec_perm task q).mem_iff, List.mem_cons]

theorem insertRec_length (task : Task) (q : List Task) :
    (insertRec task q).length = q.length + 1 := by
  rw [(insertRec_perm task q).length_eq, List.length_cons]

theorem insertRec_pairwise {task : Task} {q : List Task}
    (hq : q.Pairwise Rp) : (insertRec task q).Pairwise Rp := by
  induction q with
  | nil => simp [insertRec, List.pairwise_cons]
  | cons x xs ih =>
    rcases List.pairwise_cons.mp hq with ⟨hx, hxs⟩
    by_cases h : task.priority < x.priority
    · rw [insertRec, if_pos h]
      refine List.pairwise_cons.mpr ⟨?_, hq⟩
      intro b hb
      rcases List.mem_cons.mp hb with rfl | hbxs
      · exact Nat.le_of_lt h
      · exact Nat.le_of_lt (Nat.lt_of_lt_of_le h (hx b hbxs))
    · rw [insertRec, if_neg h]
      refine List.pairwise_cons.mpr ⟨?_, ih hxs⟩
      intro b hb
      rcases mem_insertRec.mp hb with rfl | hbxs
      · exact Nat.le_of_not_lt h
      · exact hx b hbxs

theorem insertRec_ids_nodup {task : Task} {q : List Task}
    (hq : (q.map Task.id).Nodup) (hf : ∀ t ∈ q, t.id ≠ task.id) :
    ((insertRec task q).map Task.id).Nodup := by
  rw [((insertRec_perm task q).map Task.id).nodup_iff]
  rw [List.map_cons, List.nodup_cons]
  refine ⟨?_, hq⟩
  intro hmem
  rcases List.mem_map.mp hmem with ⟨t, ht, hid⟩
  exact hf t ht hid

/-- Under a priority-sorted queue the insertion lands exactly after the tasks
of priority at most the new task's, and before those of strictly greater
priority. -/
theorem insertRec_sorted_eq {task : Task} {q : List Task} (hq : q.Pairwise Rp) :
    insertRec task q
      = q.filter (fun x => decide (x.priority ≤ task.priority)) ++ task ::
        q.filter (fun x => decide (task.priority < x.priority)) := by
  induction q with
  | nil => simp [insertRec]
  | cons x xs ih =>
    rcases List.pairwise_cons.mp hq with ⟨hx, hxs⟩
    by_cases h : task.priority < x.priority
    · rw [insertRec, if_pos h]
      have h1 : xs.filter (fun y => decide (y.priority ≤ task.priority)) = [] := by
        rw [List.filter_eq_nil_iff]
        intro a ha
        simp only [decide_eq_true_eq]
        exact Nat.not_le_of_lt (Nat.lt_of_lt_of_le h (hx a ha))
      have h2 : xs.filter (fun y => decide (task.priority < y.priority)) = xs := by
        rw [List.filter_eq_self]
        intro a ha
        simp only [decide_eq_true_eq]
        exact Nat.lt_of_lt_of_le h (hx a ha)
      simp [List.filter_cons, Nat.not_le_of_lt h, h, h1, h2]
    · rw [insertRec, if_neg h, ih hxs]
      simp [List.filter_cons, Nat.le_of_not_lt h, h]

-- ## Helper lemmas about in-place task update

theorem updTask_ids {id : String} {t' : Task} (q : List Task) (h : t'.id = id) :
    (updTask id t' q).map Task.id = q.map Task.id := by
  unfold updTask
  rw [List.map_map]
  apply List.map_congr_left
  intro a _
  by_cases hx : a.id = id <;> simp [hx, h]

theorem mem_updTask {id : String} {t' x : Task} {q : List Task}
    (h : x ∈ updTask id t' q) : x = t' ∨ x ∈ q := by
  unfold updTask at h
  rcases List.mem_map.mp h with ⟨a, ha, rfl⟩
  by_cases hx : a.id = id
  · simp [hx]
  · simp only [hx, if_false]
    exact Or.inr ha

theorem mem_updTask_self {t t' : Task} {q : List Task} (ht : t ∈ q) :
    t' ∈ updTask t.id t' q := by
  have := List.mem_map_of_mem (fun x => if x.id = t.id then t' else x) ht
  simpa [updTask] using this

theorem updTask_pairwise {t t' : Task} {q : List Task}
    (hnd : (q.map Task.id).Nodup) (ht : t ∈ q) (hp : t'.priority = t.priority)
    (h : q.Pairwise Rp) : (updTask t.id t' q).Pairwise Rp := by
  unfold updTask
  rw [List.pairwise_map]
  have key : ∀ x ∈ q, (if x.id = t.id then t' else x).priority = x.priority := by
    intro x hx
    by_cases hxi : x.id = t.id
    · have hxt : x = t := List.inj_on_of_nodup_map hnd hx ht hxi
      subst hxt
      simp [hxi, hp]
    · simp [hxi]
  refine h.imp_of_mem ?_
  intro a b ha hb hab
  simpa [key a ha, key b hb] using hab

theorem updTask_length {id : String} {t' : Task} (q : List Task) :
    (updTask id t' q).length = q.length := List.length_map _ _

end TaskQueue


namespace TaskQueue

theorem nodup_updTask {id : String} {t' : Task} {q : List Task} (h : t'.id = id)
    (hq : (q.map Task.id).Nodup) : ((updTask id t' q).map Task.id).Nodup := by
  rw [updTask_ids q h]
  exact hq

-- ## The reachable-state invariant

/-- Structural invariant of reachable engine states: queue ids are distinct,
the queue is sorted by ascending priority value, no queued task is in the
unused `WAITING` state, and the current task (when set) is a `PROCESSING`
member of the queue. -/
structure Inv (s : Engine) : Prop where
  nodupIds : (s.queue.map Task.id).Nodup
  sorted : s.queue.Pairwise Rp
  noWaiting : ∀ t ∈ s.queue, t.state ≠ TaskState.waiting
  currentOk : ∀ t, s.currentTask = some t → t ∈ s.queue ∧ t.state = TaskState.processing

theorem getNextTask_mem {s : Engine} {t : Task} (h : getNextTask s = some t) :
    t ∈ s.queue := List.mem_of_find?_eq_some h

theorem getNextTask_pending {s : Engine} {t : Task} (h : getNextTask s = some t) :
    t.state = TaskState.pending := by
  have := List.find?_some h
  simpa using this

theorem inv_processNext {s : Engine} (now : Nat) (h : Inv s) :
    Inv (processNext s now).1 := by
  cases hg : getNextTask s with
  | none =>
    simp only [processNext, hg]
    exact ⟨h.nodupIds, h.sorted, h.noWaiting, by intro t ht; simp at ht⟩
  | some t =>
    have hmem := getNextTask_mem hg
    simp only [processNext, hg]
    refine ⟨?_, ?_, ?_, ?_⟩
    · exact nodup_updTask rfl h.nodupIds
    · exact updTask_pairwise h.nodupIds hmem rfl h.sorted
    · intro x hx
      rcases mem_updTask hx with rfl | hxq
      · simp
      · exact h.noWaiting x hxq
    · intro x hx
      simp only [Option.some.injEq] at hx
      subst hx
      exact ⟨mem_updTask_self hmem, rfl⟩

theorem inv_enqueue {s : Engine} (now : Nat) (sfx content : String) (opts : Options)
    (h : Inv s) (hfresh : ∀ t ∈ s.queue, t.id ≠ taskId now sfx) :
    Inv (enqueue s now sfx content opts).1 := by
  have hins : ∀ task : Task, task.id = taskId now sfx → task.state = TaskState.pending →
      Inv { s with queue := insertTask task s.queue } := by
    intro task hid hst
    rw [insertTask_eq_insertRec]
    refine ⟨?_, ?_, ?_, ?_⟩
    · exact insertRec_ids_nodup h.nodupIds (by simpa [hid] using hfresh)
    · exact insertRec_pairwise h.sorted
    · intro t ht
      rcases mem_insertRec.mp ht with rfl | htq
      · simp [hst]
      · exact h.noWaiting t htq
    · intro t ht
      rcases h.currentOk t ht with ⟨hmem, hstp⟩
      exact ⟨mem_insertRec.mpr (Or.inr hmem), hstp⟩
  by_cases hc : s.config.autoProcess && s.state.status == RunStatus.idle
  · simp only [enqueue, hc, if_true]
    exact inv_processNext now (hins _ rfl rfl)
  · simp only [enqueue, hc, if_false]
    exact hins _ rfl rfl

theorem inv_completeTask {s : Engine} (now : Nat) (r : List (String × String))
    (h : Inv s) : Inv (completeTask s now r).1 := by
  cases hc : s.currentTask with
  | none => simpa [completeTask, hc] using h
  | some task =>
    have hmem := (h.currentOk task hc).1
    simp only [completeTask, hc]
    refine ⟨?_, ?_, ?_, ?_⟩
    · exact ((List.filter_sublist _).map Task.id).nodup (nodup_updTask rfl h.nodupIds)
    · refine (updTask_pairwise h.nodupIds hmem ?_ h.sorted).filter _
      rfl
    · intro x hx
      rcases mem_updTask (List.mem_filter.mp hx).1 with rfl | hxq
      · simp
      · exact h.noWaiting x hxq
    · intro x hx
      simp at hx

theorem inv_completeSubTask {s : Engine} (sid : String) (h : Inv s) :
    Inv (completeSubTask s sid).1 := by
  cases hc : s.currentTask with
  | none => simpa [completeSubTask, hc] using h
  | some task =>
    cases hf : task.subTasks.find? (fun st => st.id == sid) with
    | none => simpa [completeSubTask, hc, hf] using h
    | some stv =>
      rcases h.currentOk task hc with ⟨hmem, hst⟩
      simp only [completeSubTask, hc, hf]
      refine ⟨?_, ?_, ?_, ?_⟩
      · exact nodup_updTask rfl h.nodupIds
      · exact updTask_pairwise h.nodupIds hmem rfl h.sorted
      · intro x hx
        rcases mem_updTask hx with rfl | hxq
        · simp [hst]
        · exact h.noWaiting x hxq
      · intro x hx
        simp only [Option.some.injEq] at hx
        subst hx
        exact ⟨mem_updTask_self hmem, hst⟩

theorem inv_failTask {s : Engine} (now : Nat) (err : String) (h : Inv s) :
    Inv (failTask s now err).1 := by
  cases hc : s.currentTask with
  | none => simpa [failTask, hc] using h
  | some task =>
    have hmem := (h.currentOk task hc).1
    have hpri : (failTaskUpd s.config.maxRetries err task).priority = task.priority := by
      unfold failTaskUpd
      by_cases hr : s.config.maxRetries ≤ task.retryCount + 1 <;> simp [hr]
    have hwt : (failTaskUpd s.config.maxRetries err task).state ≠ TaskState.waiting := by
      unfold failTaskUpd
      by_cases hr : s.config.maxRetries ≤ task.retryCount + 1 <;> simp [hr]
    have hid : (failTaskUpd s.config.maxRetries err task).id = task.id := by
      unfold failTaskUpd
      by_cases hr : s.config.maxRetries ≤ task.retryCount + 1 <;> simp [hr]
    have hupd : Inv { s with
        queue := updTask task.id (failTaskUpd s.config.maxRetries err task) s.queue,
        currentTask := none } := by
      refine ⟨?_, ?_, ?_, ?_⟩
      · exact nodup_updTask hid h.nodupIds
      · exact updTask_pairwise h.nodupIds hmem hpri h.sorted
      · intro x hx
        rcases mem_updTask hx with rfl | hxq
        · exact hwt
        · exact h.noWaiting x hxq
      · intro x hx
        simp at hx
    have hflt : Inv { s with
        queue := (updTask task.id (failTaskUpd s.config.maxRetries err task) s.queue).filter
                   (fun t => t.id != task.id),
        currentTask := none } := by
      refine ⟨?_, ?_, ?_, ?_⟩
      · exact ((List.filter_sublist _).map Task.id).nodup hupd.nodupIds
      · exact hupd.sorted.filter _
      · intro x hx
        exact hupd.noWaiting x (List.mem_filter.mp hx).1
      · intro x hx
        simp at hx
    simp only [failTask, hc]
    cases hfb : (failTaskUpd s.config.maxRetries err task).state == TaskState.failed <;>
      by_cases ha : s.config.autoProcess <;>
        simp only [hfb, ha, if_true, if_false, Bool.false_eq_true, Bool.true_eq_false, ite_true,
          ite_false]
    · exact inv_processNext now
        ⟨hupd.nodupIds, hupd.sorted, hupd.noWaiting, by intro x hx; simp at hx⟩
    · exact ⟨hupd.nodupIds, hupd.sorted, hupd.noWaiting, by intro x hx; simp at hx⟩
    · exact inv_processNext now
        ⟨hflt.nodupIds, hflt.sorted, hflt.noWaiting, by intro x hx; simp at hx⟩
    · exact ⟨hflt.nodupIds, hflt.sorted, hflt.noWaiting, by intro x hx; simp at hx⟩

theorem inv_resume {s : Engine} (now : Nat) (h : Inv s) : Inv (resume s now) := by
  have h1 : Inv { s with state.status := RunStatus.idle } :=
    ⟨h.nodupIds, h.sorted, h.noWaiting, h.currentOk⟩
  by_cases ha : s.config.autoProcess
  · simp only [resume, ha, if_true]
    exact inv_processNext now h1
  · simp only [resume, ha, if_false]
    exact h1

theorem inv_clear {s : Engine} (h : Inv s) : Inv (clear s) := by
  refine ⟨?_, ?_, ?_, ?_⟩
  · exact ((List.filter_sublist _).map Task.id).nodup h.nodupIds
  · exact h.sorted.filter _
  · intro t ht
    exact h.noWaiting t (List.mem_filter.mp ht).1
  · intro t ht
    rcases h.currentOk t ht with ⟨hmem, hst⟩
    refine ⟨List.mem_filter.mpr ⟨hmem, ?_⟩, hst⟩
    simp [hst]

theorem inv_mkEngine (cfg : Config) (now : Nat) : Inv (mkEngine cfg now) := by
  refine ⟨?_, ?_, ?_, ?_⟩ <;> simp [mkEngine, newEngine, load]

theorem inv_restart {s : Engine} (cfg : Config) (now : Nat) (h : Inv s) :
    Inv (newEngine cfg now (persist s)) := by
  refine ⟨?_, ?_, ?_, ?_⟩
  · simpa [newEngine, load, persist] using h.nodupIds
  · simpa [newEngine, load, persist] using h.sorted
  · simpa [newEngine, load, persist] using h.noWaiting
  · intro t ht
    simp [newEngine, load, persist] at ht

/-- Every reachable engine state satisfies the structural invariant. -/
theorem reach_inv {s : Engine} (h : Reach s) : Inv s := by
  induction h with
  | init cfg now => exact inv_mkEngine cfg now
  | enqueueStep now sfx content opts _ hfresh ih =>
    exact inv_enqueue now sfx content opts ih hfresh
  | timerStep now _ ih => exact inv_processNext now ih
  | completeStep now r _ ih => exact inv_completeTask now r ih
  | completeSubStep sid _ ih => exact inv_completeSubTask sid ih
  | failStep now err _ ih => exact inv_failTask now err ih
  | pauseStep _ ih => exact ⟨ih.nodupIds, ih.sorted, ih.noWaiting, ih.currentOk⟩
  | resumeStep now _ ih => exact inv_resume now ih
  | clearStep _ ih => exact inv_clear ih
  | restartStep cfg now _ ih => exact inv_restart cfg now ih

end TaskQueue

namespace TaskQueue

-- ## Auxiliary facts used by the claim theorems

theorem processNext_queue_length (s : Engine) (now : Nat) :
    (processNext s now).1.queue.length = s.queue.length := by
  cases hg : getNextTask s with
  | none => simp [processNext, hg]
  | some t => simp [processNext, hg, updTask_length]

theorem processNext_status (s : Engine) (now : Nat) :
    (processNext s now).1.state.status = RunStatus.idle ∨
    (processNext s now).1.state.status = RunStatus.processing := by
  cases hg : getNextTask s with
  | none => simp [processNext, hg]
  | some t => simp [processNext, hg]

theorem insertTask_length (task : Task) (q : List Task) :
    (insertTask task q).length = q.length + 1 := by
  rw [insertTask_eq_insertRec, insertRec_length]

theorem processNext_status_ne_paused (s : Engine) (now : Nat) :
    (processNext s now).1.state.status ≠ RunStatus.paused := by
  rcases processNext_status s now with h | h <;> simp [h]

end TaskQueue

namespace TaskQueue

-- ## Claim C5

/-- Claim C5: persisting the engine state (queue, run state, progress index)
and loading it back — including through a restart into a fresh engine —
returns exactly the original queue, run state and progress index. -/
theorem c5_persist_load_roundtrip (s : Engine) (cfg : Config) (now : Nat) :
    (newEngine cfg now (persist s)).queue = s.queue ∧
    (newEngine cfg now (persist s)).state = s.state ∧
    (newEngine cfg now (persist s)).progress = s.progress :=
  ⟨rfl, rfl, rfl⟩

-- ## Claim C6

/-- Claim C6: in any reachable state in which no queued task is
`PROCESSING`, `completeTask` returns `false` and leaves the whole engine
state unchanged, and so does `failTask`. -/
theorem c6_complete_fail_noop (s : Engine) (h : Reach s)
    (hnp : ∀ t ∈ s.queue, t.state ≠ TaskState.processing)
    (now : Nat) (r : List (String × String)) (err : String) :
    completeTask s now r = (s, false) ∧ failTask s now err = (s, false) := by
  have hcur : s.currentTask = none := by
    cases hc : s.currentTask with
    | none => rfl
    | some t =>
      rcases (reach_inv h).currentOk t hc with ⟨hmem, hst⟩
      exact absurd hst (hnp t hmem)
  constructor
  · simp [completeTask, hcur]
  · simp [failTask, hcur]

theorem c6_complete_fail_noop_witness :
    completeTask (mkEngine {} 0) 1 [] = (mkEngine {} 0, false) ∧
    failTask (mkEngine {} 0) 1 "e" = (mkEngine {} 0, false) :=
  c6_complete_fail_noop (mkEngine {} 0) (Reach.init {} 0)
    (by intro t ht; simp [mkEngine, newEngine, load] at ht) 1 [] "e"

-- ## Claim C10

/-- Claim C10: every option field omitted from an `enqueue` call is filled
with its fixed default: platform `"unknown"`, user id `"unknown"`, priority
`NORMAL` (numeric value 2), metadata `{}`, session id `null`. -/
theorem c10_enqueue_defaults (s : Engine) (now : Nat) (sfx content : String)
    (o : Options) :
    (o.platform = none → ((enqueue s now sfx content o).2).platform = "unknown") ∧
    (o.userId = none → ((enqueue s now sfx content o).2).userId = "unknown") ∧
    (o.priority = none →
      ((enqueue s now sfx content o).2).priority = PRIORITY_NORMAL ∧
      ((enqueue s now sfx content o).2).priority = 2) ∧
    (o.metadata = none → ((enqueue s now sfx content o).2).metadata = []) ∧
    (o.sessionId = none → ((enqueue s now sfx content o).2).sessionId = none) := by
  by_cases hc : s.config.autoProcess && s.state.status == RunStatus.idle <;>
    refine ⟨?_, ?_, ?_, ?_, ?_⟩ <;> intro h <;>
      simp [enqueue, hc, h, PRIORITY_NORMAL]

theorem c10_enqueue_defaults_witness :
    ((enqueue (mkEngine {} 0) 1 "a" "hello" {}).2).platform = "unknown" ∧
    ((enqueue (mkEngine {} 0) 1 "a" "hello" {}).2).userId = "unknown" ∧
    ((enqueue (mkEngine {} 0) 1 "a" "hello" {}).2).priority = 2 ∧
    ((enqueue (mkEngine {} 0) 1 "a" "hello" {}).2).metadata = [] ∧
    ((enqueue (mkEngine {} 0) 1 "a" "hello" {}).2).sessionId = none := by
  have h := c10_enqueue_defaults (mkEngine {} 0) 1 "a" "hello" {}
  exact ⟨h.1 rfl, h.2.1 rfl, (h.2.2.1 rfl).2, h.2.2.2.1 rfl, h.2.2.2.2 rfl⟩

-- ## Claim C4

/-- Claim C4 is false on the code: `enqueue` performs no content validation.
Enqueueing the empty string on a fresh engine returns a task and grows the
queue — the engine state is mutated and no `InvalidInput` failure occurs. -/
theorem c4_counterexample :
    (enqueue (mkEngine {} 0) 1 "a" "" {}).1 ≠ mkEngine {} 0 ∧
    ((enqueue (mkEngine {} 0) 1 "a" "" {}).1).queue.length = 1 := by
  decide

/-- Claim C4 amended: `enqueue` accepts an empty content string without any
failure; it creates a `PENDING` task with empty content and no sub-tasks and
inserts it into the queue (the queue always grows by one). -/
theorem c4_empty_content_accepted (s : Engine) (now : Nat) (sfx : String)
    (o : Options) :
    ((enqueue s now sfx "" o).1).queue.length = s.queue.length + 1 ∧
    ((enqueue s now sfx "" o).2).content = "" ∧
    ((enqueue s now sfx "" o).2).subTasks = [] ∧
    ((enqueue s now sfx "" o).2).state = TaskState.pending := by
  have hsub : ∀ tid, parseSubTasks tid "" = [] := fun tid => rfl
  by_cases hc : s.config.autoProcess && s.state.status == RunStatus.idle <;>
    refine ⟨?_, ?_, ?_, ?_⟩ <;>
      simp [enqueue, hc, hsub, processNext_queue_length, insertTask_length]

-- ## Claim C8

/-- Claim C8: on reachable states `clear` removes exactly the tasks whose
state is `COMPLETED` or `FAILED`, and it is idempotent. -/
theorem c8_clear_exact_idempotent (s : Engine) (h : Reach s) :
    (clear s).queue = s.queue.filter
      (fun t => !(t.state == TaskState.completed || t.state == TaskState.failed)) ∧
    clear (clear s) = clear s := by
  constructor
  · apply List.filter_congr
    intro t ht
    have hw := (reach_inv h).noWaiting t ht
    cases hst : t.state <;> simp_all
  · have hq : List.filter
        (fun t => t.state == TaskState.processing || t.state == TaskState.pending)
        (List.filter
          (fun t => t.state == TaskState.processing || t.state == TaskState.pending)
          s.queue)
        = List.filter
            (fun t => t.state == TaskState.processing || t.state == TaskState.pending)
            s.queue := by
      rw [List.filter_filter]
      apply List.filter_congr
      intro a _
      exact Bool.and_self _
    exact congrArg (fun q => { s with queue := q }) hq

theorem c8_clear_exact_idempotent_witness :
    (clear (mkEngine {} 0)).queue = (mkEngine {} 0).queue.filter
      (fun t => !(t.state == TaskState.completed || t.state == TaskState.failed)) ∧
    clear (clear (mkEngine {} 0)) = clear (mkEngine {} 0) :=
  c8_clear_exact_idempotent (mkEngine {} 0) (Reach.init {} 0)

-- ## Claim C1

/-- The engine state reached by: enqueue "A" (auto-started into processing),
enqueue "B" (stays pending behind it), `pause()`, `resume()`. -/
def bugEngine : Engine :=
  resume (pause ((enqueue ((enqueue (mkEngine {} 0) 1 "a" "A" {}).1) 2 "b" "B" {}).1)) 3

/-- Claim C1 is violated by the code: the state `bugEngine` is reachable
(enqueue, enqueue, pause, resume) yet holds two `PROCESSING` tasks —
`resume` re-dequeues while the first task still occupies the processing
slot, and the first task is left `PROCESSING` in the queue forever. -/
theorem c1_two_processing_reachable :
    Reach bugEngine ∧
    (bugEngine.queue.filter (fun t => t.state == TaskState.processing)).length = 2 := by
  constructor
  · exact Reach.resumeStep 3 (Reach.pauseStep (Reach.enqueueStep 2 "b" "B" {}
      (Reach.enqueueStep 1 "a" "A" {} (Reach.init {} 0) (by decide)) (by decide)))
  · decide

end TaskQueue

namespace TaskQueue

-- ## Claim C7

/-- A paused engine holding a current `PROCESSING` task: enqueue "A"
(auto-started into the slot), then `pause()`. -/
def c7Engine : Engine := pause ((enqueue (mkEngine {} 0) 1 "a" "A" {}).1)

/-- Claim C7 is false on the code: with the engine paused and a task in the
processing slot, `failTask` resets the status to `idle` and immediately
re-dequeues — after it, the status is `processing` and a task is
`PROCESSING` again, although `resume()` was never called. -/
theorem c7_counterexample :
    Reach c7Engine ∧
    c7Engine.state.status = RunStatus.paused ∧
    (failTask c7Engine 2 "boom").1.state.status = RunStatus.processing ∧
    ((failTask c7Engine 2 "boom").1.queue.filter
       (fun t => t.state == TaskState.processing)).length = 1 := by
  refine ⟨?_, by decide, by decide, by decide⟩
  exact Reach.pauseStep (Reach.enqueueStep 1 "a" "A" {} (Reach.init {} 0) (by decide))

/-- Claim C7 amended: while the status is `paused`, `enqueue` adds the task
as `PENDING` and triggers no dequeue (the engine is unchanged except for the
priority insertion), and `resume` sets the status to `idle` and immediately
attempts the next dequeue; however pause does not survive `failTask` (or
`completeTask`): failing the current task resets the status to `idle` and
auto-advances, so afterwards the status is never `paused`. -/
theorem c7_paused_behavior (s : Engine) (hp : s.state.status = RunStatus.paused) :
    (∀ now sfx content o,
       (enqueue s now sfx content o).1
         = { s with queue := insertTask (enqueue s now sfx content o).2 s.queue } ∧
       ((enqueue s now sfx content o).2).state = TaskState.pending) ∧
    (∀ now, s.config.autoProcess = true →
       resume s now = (processNext { s with state.status := RunStatus.idle } now).1) ∧
    (∀ now err, s.currentTask.isSome = true →
       (failTask s now err).1.state.status ≠ RunStatus.paused) := by
  have hc : (s.config.autoProcess && s.state.status == RunStatus.idle) = false := by
    simp [hp]
  refine ⟨?_, ?_, ?_⟩
  · intro now sfx content o
    constructor
    · simp [enqueue, hc]
    · simp [enqueue, hc]
  · intro now ha
    simp [resume, ha]
  · intro now err hsome
    obtain ⟨task, hcur⟩ := Option.isSome_iff_exists.mp hsome
    by_cases ha : s.config.autoProcess
    · simp only [failTask, hcur, ha, if_true]
      exact processNext_status_ne_paused _ now
    · simp [failTask, hcur, ha]

theorem c7_paused_behavior_witness :
    ((enqueue c7Engine 5 "x" "hi" {}).1
       = { c7Engine with
           queue := insertTask (enqueue c7Engine 5 "x" "hi" {}).2 c7Engine.queue }) ∧
    ((enqueue c7Engine 5 "x" "hi" {}).2).state = TaskState.pending ∧
    resume c7Engine 6 = (processNext { c7Engine with state.status := RunStatus.idle } 6).1 ∧
    (failTask c7Engine 7 "e").1.state.status ≠ RunStatus.paused := by
  have h := c7_paused_behavior c7Engine (by decide)
  exact ⟨(h.1 5 "x" "hi" {}).1, (h.1 5 "x" "hi" {}).2, h.2.1 6 (by decide),
         h.2.2 7 "e" (by decide)⟩

-- ## Claim C2

/-- A reachable engine with two equal-priority tasks. -/
def c2Engine : Engine :=
  (enqueue ((enqueue (mkEngine {} 0) 1 "a" "A" {}).1) 2 "b" "B" {}).1

/-- A further normal-priority task used to exhibit the insertion position. -/
def c2Task : Task := (enqueue (mkEngine {} 0) 3 "c" "C" {}).2

/-- Claim C2: in every reachable queue state, any pending task positioned
before another pending task has priority value at most the later one's; and
the enqueue insertion places a new task exactly after all tasks of priority
at most its own and before all tasks of strictly greater priority value
(first position whose task has strictly greater priority, else append) — so
equal-priority tasks keep insertion order. -/
theorem c2_priority_order (s : Engine) (h : Reach s) :
    s.queue.Pairwise (fun a b =>
      a.state = TaskState.pending → b.state = TaskState.pending →
        a.priority ≤ b.priority) ∧
    (∀ task : Task, insertTask task s.queue
       = s.queue.filter (fun x => decide (x.priority ≤ task.priority)) ++ task ::
         s.queue.filter (fun x => decide (task.priority < x.priority))) := by
  have hs := (reach_inv h).sorted
  constructor
  · exact hs.imp (fun hab _ _ => hab)
  · intro task
    rw [insertTask_eq_insertRec]
    exact insertRec_sorted_eq hs

theorem c2_priority_order_witness :
    c2Engine.queue.Pairwise (fun a b =>
      a.state = TaskState.pending → b.state = TaskState.pending →
        a.priority ≤ b.priority) ∧
    insertTask c2Task c2Engine.queue
      = c2Engine.queue.filter (fun x => decide (x.priority ≤ c2Task.priority)) ++ c2Task ::
        c2Engine.queue.filter (fun x => decide (c2Task.priority < x.priority)) := by
  have h := c2_priority_order c2Engine (Reach.enqueueStep 2 "b" "B" {}
    (Reach.enqueueStep 1 "a" "A" {} (Reach.init {} 0) (by decide)) (by decide))
  exact ⟨h.1, h.2 c2Task⟩

end TaskQueue

namespace TaskQueue

-- ## Claim C3

/-- Configuration exercising the retry ceiling with the explicit-dequeue
driver (`autoProcess = false`; spec §6: "an external caller must invoke
dequeue explicitly"). -/
def retryConfig (m : Nat) : Config :=
  { maxRetries := m, autoProcess := false }

/-- Engine holding exactly the one freshly enqueued task. -/
def retryStart (m now0 : Nat) (sfx content : String) (o : Options) : Engine :=
  (enqueue (mkEngine (retryConfig m) 0) now0 sfx content o).1

/-- The enqueued task itself. -/
def retryTask0 (m now0 : Nat) (sfx content : String) (o : Options) : Task :=
  (enqueue (mkEngine (retryConfig m) 0) now0 sfx content o).2

/-- One dequeue-then-fail round: the task becomes current (`PROCESSING`) and
is then failed. -/
def failCycle (now : Nat) (err : String) (s : Engine) : Engine :=
  (failTask (processNext s now).1 now err).1

/-- The engine after `k` consecutive dequeue-then-fail rounds on the single
enqueued task. -/
def retryEngine (m now0 now : Nat) (sfx content : String) (o : Options)
    (err : String) : Nat → Engine
  | 0 => retryStart m now0 sfx content o
  | k + 1 => failCycle now err (retryEngine m now0 now sfx content o err k)

theorem retryStart_eq (m now0 : Nat) (sfx content : String) (o : Options) :
    retryStart m now0 sfx content o
      = { config := retryConfig m,
          queue := [retryTask0 m now0 sfx content o],
          currentTask := none,
          state := defaultRunState 0,
          progress := [] } := by
  simp [retryStart, retryTask0, enqueue, mkEngine, newEngine, load, retryConfig,
        insertTask, List.findIdx?_nil]

theorem retryTask0_eq (m now0 : Nat) (sfx content : String) (o : Options) :
    retryTask0 m now0 sfx content o
      = { id := taskId now0 sfx, content := content,
          platform := o.platform.getD "unknown", userId := o.userId.getD "unknown",
          priority := o.priority.getD PRIORITY_NORMAL, metadata := o.metadata.getD [],
          sessionId := o.sessionId.getD none, state := .pending, createdAt := now0,
          startedAt := none, completedAt := none,
          subTasks := parseSubTasks (taskId now0 sfx) content, retryCount := 0,
          result := none, error := none } := by
  simp [retryTask0, enqueue, mkEngine, newEngine, load, retryConfig]

theorem failCycle_step_lt (m k now now0 : Nat) (sfx content : String) (o : Options)
    (err : String) (st : Option Nat) (hk1 : k + 1 < m) :
    failCycle now err
      { config := retryConfig m,
        queue := [{ retryTask0 m now0 sfx content o with
                    retryCount := k, startedAt := st, state := TaskState.pending }],
        currentTask := none, state := defaultRunState 0, progress := [] }
      = { config := retryConfig m,
          queue := [{ retryTask0 m now0 sfx content o with
                      retryCount := k + 1, startedAt := some now,
                      state := TaskState.pending }],
          currentTask := none, state := defaultRunState 0, progress := [] } := by
  have hne : ¬ (m ≤ k + 1) := Nat.not_le.mpr hk1
  simp [failCycle, processNext, getNextTask, failTask, failTaskUpd, updTask,
        retryConfig, defaultRunState, hne]

theorem failCycle_step_failed (j now now0 : Nat) (sfx content : String) (o : Options)
    (err : String) (st : Option Nat) :
    failCycle now err
      { config := retryConfig (j + 1),
        queue := [{ retryTask0 (j + 1) now0 sfx content o with
                    retryCount := j, startedAt := st, state := TaskState.pending }],
        currentTask := none, state := defaultRunState 0, progress := [] }
      = { config := retryConfig (j + 1),
          queue := [],
          currentTask := none,
          state := { defaultRunState 0 with totalFailed := 1 },
          progress := [] } := by
  simp [failCycle, processNext, getNextTask, failTask, failTaskUpd, updTask,
        retryConfig, defaultRunState]

theorem retryEngine_lt (m now0 now : Nat) (sfx content : String) (o : Options)
    (err : String) :
    ∀ k, k < m →
      retryEngine m now0 now sfx content o err k
        = { config := retryConfig m,
            queue := [{ retryTask0 m now0 sfx content o with
                        retryCount := k,
                        startedAt := if k = 0 then none else some now,
                        state := TaskState.pending }],
            currentTask := none,
            state := defaultRunState 0,
            progress := [] } := by
  intro k
  induction k with
  | zero =>
    intro _
    simp [retryEngine, retryStart_eq, retryTask0_eq]
  | succ k ih =>
    intro hk1
    have hk : k < m := Nat.lt_of_succ_lt hk1
    simp only [retryEngine]
    rw [ih hk]
    rw [failCycle_step_lt m k now now0 sfx content o err
      (if k = 0 then none else some now) hk1]
    simp

theorem c3_retry_policy (m k now0 now : Nat) (sfx content : String) (o : Options)
    (err : String) (hm : 1 ≤ m) (hk : k ≤ m) :
    (k < m →
       (retryEngine m now0 now sfx content o err k).queue
         = [{ retryTask0 m now0 sfx content o with
              retryCount := k,
              startedAt := if k = 0 then none else some now,
              state := TaskState.pending }] ∧
       (retryEngine m now0 now sfx content o err k).state.totalFailed = 0) ∧
    (k = m →
       (retryEngine m now0 now sfx content o err k).queue = [] ∧
       (retryEngine m now0 now sfx content o err k).state.totalFailed = 1 ∧
       (retryEngine m now0 now sfx content o err k).currentTask = none ∧
       (failTaskUpd m err { retryTask0 m now0 sfx content o with
           retryCount := m - 1, startedAt := some now,
           state := TaskState.processing }).state = TaskState.failed ∧
       (failTaskUpd m err { retryTask0 m now0 sfx content o with
           retryCount := m - 1, startedAt := some now,
           state := TaskState.processing }).retryCount = m) := by
  constructor
  · intro hlt
    rw [retryEngine_lt m now0 now sfx content o err k hlt]
    exact ⟨rfl, rfl⟩
  · intro hkm
    subst hkm
    obtain ⟨j, rfl⟩ : ∃ j, k = j + 1 := ⟨k - 1, (Nat.succ_pred_eq_of_pos hm).symm⟩
    have hjm : j < j + 1 := Nat.lt_succ_self j
    have hEq : retryEngine (j + 1) now0 now sfx content o err (j + 1)
        = { config := retryConfig (j + 1), queue := [], currentTask := none,
            state := { defaultRunState 0 with totalFailed := 1 }, progress := [] } := by
      simp only [retryEngine]
      rw [retryEngine_lt (j + 1) now0 now sfx content o err j hjm,
          failCycle_step_failed j now now0 sfx content o err (if j = 0 then none else some now)]
    refine ⟨?_, ?_, ?_, ?_, ?_⟩
    · rw [hEq]
    · rw [hEq]
    · rw [hEq]
    · simp [failTaskUpd, Nat.add_sub_cancel]
    · simp [failTaskUpd, Nat.add_sub_cancel]

end TaskQueue

namespace TaskQueue

theorem c3_retry_policy_witness :
    ((retryEngine 3 10 11 "x" "go" {} "boom" 2).queue
       = [{ retryTask0 3 10 "x" "go" {} with
            retryCount := 2, startedAt := some 11, state := TaskState.pending }]) ∧
    (retryEngine 3 10 11 "x" "go" {} "boom" 2).state.totalFailed = 0 ∧
    (retryEngine 3 10 11 "x" "go" {} "boom" 3).queue = [] ∧
    (retryEngine 3 10 11 "x" "go" {} "boom" 3).state.totalFailed = 1 := by
  have h2 := c3_retry_policy 3 2 10 11 "x" "go" {} "boom" (by decide) (by decide)
  have h3 := c3_retry_policy 3 3 10 11 "x" "go" {} "boom" (by decide) (by decide)
  have e2 := h2.1 (by decide)
  have e3 := h3.2 rfl
  exact ⟨by simpa using e2.1, e2.2, e3.1, e3.2.1⟩

-- ## Claim C9

/-- The parse rule exactly as claim C9 words it: one SubTask for each line
beginning with `"- "` or `"* "`, with content the line after the
two-character bullet, indexed in encounter order. -/
def claimSubTasks (taskId : String) (content : String) : List SubTask :=
  (((splitLines content).filter
      (fun l => strStarts "- " l || strStarts "* " l)).enum).map
    (fun p => ⟨taskId ++ "_sub_" ++ Nat.repr p.1, strDrop2 p.2, .pending⟩)

/-- The amended parse rule: one SubTask for each line whose *trimmed* form
begins with `"- "` or `"* "`, with content the trimmed line after the
two-character bullet, indexed in encounter order. -/
def amendedSubTasks (taskId : String) (content : String) : List SubTask :=
  ((((splitLines content).map jsTrim).filter
      (fun l => strStarts "- " l || strStarts "* " l)).enum).map
    (fun p => ⟨taskId ++ "_sub_" ++ Nat.repr p.1, strDrop2 p.2, .pending⟩)

/-- Claim C9 is false as stated: the source trims each line before the
bullet test, so the content `" - x"` — whose only line does *not* begin
with `"- "` — still yields a sub-task (with trimmed content `"x"`). -/
theorem c9_counterexample :
    claimSubTasks "t" " - x" = [] ∧
    parseSubTasks "t" " - x" = [⟨"t_sub_0", "x", TaskState.pending⟩] ∧
    parseSubTasks "t" " - x" ≠ claimSubTasks "t" " - x" := by
  decide

theorem foldl_filter_of_id {α β : Type} (f : β → α → β) (p : α → Bool)
    (h : ∀ x, p x = false → ∀ acc, f acc x = acc) :
    ∀ (l : List α) (acc : β), (l.filter p).foldl f acc = l.foldl f acc := by
  intro l
  induction l with
  | nil => intro acc; rfl
  | cons x xs ih =>
    intro acc
    cases hp : p x with
    | false => simp [List.filter_cons, hp, h x hp acc, ih]
    | true => simp [List.filter_cons, hp, ih]

theorem parse_fold_general (tid : String) :
    ∀ (lines : List String) (acc : List SubTask),
      lines.foldl
        (fun acc line =>
          let trimmed := jsTrim line
          if strStarts "- " trimmed || strStarts "* " trimmed then
            acc ++ [⟨tid ++ "_sub_" ++ Nat.repr acc.length, strDrop2 trimmed, .pending⟩]
          else acc)
        acc
      = acc ++ ((((lines.map jsTrim).filter
          (fun l => strStarts "- " l || strStarts "* " l)).enumFrom acc.length)).map
          (fun p => ⟨tid ++ "_sub_" ++ Nat.repr p.1, strDrop2 p.2, TaskState.pending⟩) := by
  intro lines
  induction lines with
  | nil => intro acc; simp
  | cons l ls ih =>
    intro acc
    cases hb : (strStarts "- " (jsTrim l) || strStarts "* " (jsTrim l)) with
    | true =>
      simp only [List.foldl_cons, List.map_cons, List.filter_cons, hb]
      rw [ih]
      simp [List.enumFrom_cons, List.append_assoc, List.length_append]
    | false =>
      simp only [List.foldl_cons, List.map_cons, List.filter_cons, hb]
      rw [ih]
      simp

theorem parseSubTasks_eq_amendedAux (tid content : String) :
    parseSubTasks tid content = amendedSubTasks tid content := by
  have hb1 : strStarts "- " "" = false := by decide
  have hb2 : strStarts "* " "" = false := by decide
  have hskip : ∀ x : String, (decide (jsTrim x ≠ "")) = false →
      ∀ acc : List SubTask,
        (fun acc line =>
          let trimmed := jsTrim line
          if strStarts "- " trimmed || strStarts "* " trimmed then
            acc ++ [⟨tid ++ "_sub_" ++ Nat.repr acc.length, strDrop2 trimmed, .pending⟩]
          else acc) acc x = acc := by
    intro x hx acc
    have hx' : jsTrim x = "" := by simpa using hx
    simp [hx', hb1, hb2]
  unfold parseSubTasks amendedSubTasks
  rw [foldl_filter_of_id _ _ hskip, parse_fold_general]
  simp [List.enum]

/-- Claim C9 amended: `enqueue` parses content line by line, producing one
`PENDING` SubTask, in encounter order with ids `{taskId}_sub_{index}`, for
each line whose *trimmed* form begins with `"- "` or `"* "`, with content
the trimmed line after the two-character bullet; in particular
`"- step one\n- step two"` yields exactly the two pending sub-tasks
`"step one"` and `"step two"`. -/
theorem c9_subtask_parse_amended :
    (∀ tid content, parseSubTasks tid content = amendedSubTasks tid content) ∧
    ((enqueue (mkEngine {} 0) 1 "a" "- step one\n- step two" {}).2).subTasks
      = [⟨"task_1_a_sub_0", "step one", TaskState.pending⟩,
         ⟨"task_1_a_sub_1", "step two", TaskState.pending⟩] :=
  ⟨parseSubTasks_eq_amendedAux, by decide⟩

end TaskQueue
